import Mathlib

/-!
Verification of the dims-specification engine of `qutip/dims_utils.py`.

A Python "nested list" mixing scalars and lists is embedded as the rose
tree `NList`: `leaf a` is a scalar, `node ls` is a list whose elements
are themselves scalars or lists.  All functions below are direct
translations of the functions of `dims_utils.py`; each carries a comment
pointing at the Python it embeds.
-/

inductive NList (α : Type) : Type where
  | leaf : α → NList α
  | node : List (NList α) → NList α
deriving Repr

/-- Structural kinds returned by `type_from_dims`.  The Python function
returns one of the strings listed in the source; here each string is a
constructor. -/
inductive DimsType : Type where
  | bra
  | ket
  | operator_bra
  | operator_ket
  | oper
  | super
  | other
deriving Repr, DecidableEq

/-- Python `==` on nested lists of ints: structural equality.  A scalar
never equals a list. -/
def nbeq : NList Nat → NList Nat → Bool
  | .leaf a, .leaf b => a == b
  | .node [], .node [] => true
  | .node (x :: xs), .node (y :: ys) => nbeq x y && nbeq (.node xs) (.node ys)
  | _, _ => false

/-- Python `isinstance(x, list)`. -/
def isList : NList α → Bool
  | .node _ => true
  | .leaf _ => false

/-- Python `isinstance(x[0], (int, np.integer))` for a list `x`.  On an
empty list the Python indexing `x[0]` raises `IndexError`; that case is
unreachable for the well-formed dims specifications of the data model
(every branch non-empty), and this embedding returns `false` there. -/
def headIsInt : NList α → Bool
  | .node (.leaf _ :: _) => true
  | _ => false

/-- Python `isinstance(x[0], list)` for a list `x`; empty-list caveat as
in `headIsInt`. -/
def headIsList : NList α → Bool
  | .node (.node _ :: _) => true
  | _ => false

/-- Python `x[0] == y[0]` on two lists; evaluated by `type_from_dims`
only under the guard `dims[0] == dims[1]`, so the empty/scalar cases are
unreachable there. -/
def heads_eq : NList Nat → NList Nat → Bool
  | .node (x :: _), .node (y :: _) => nbeq x y
  | _, _ => false

/-- Loop body of Python `flatten`'s `sum(map(flatten, l), [])`: the
concatenation of the flattenings of the elements of a list. -/
def flattenList : List (NList α) → List α
  | [] => []
  | .leaf a :: xs => a :: flattenList xs
  | .node ls :: xs => flattenList ls ++ flattenList xs

/-- Python `flatten`: a scalar flattens to a one-element list, a list to
the concatenation of the flattenings of its elements. -/
def flatten (t : NList α) : List α :=
  match t with
  | .leaf a => [a]
  | .node ls => flattenList ls

/-- Python `np.prod(side)` as used by `type_from_dims`: the product of
all scalar entries.  This matches numpy on the rectangular inputs
admitted by the data model (flat integer lists, or pairs of equal-length
integer lists); numpy fails on ragged nesting, which the data model
excludes.  `np.prod([]) == 1`. -/
def np_prod (s : NList Nat) : Nat := (flatten s).prod

/-- Python `type_from_dims(dims, enforce_square)` with `dims = [d0, d1]`:
the six-way classification cascade, in source order. -/
def type_from_dims (d0 d1 : NList Nat) (enforce_square : Bool) : DimsType :=
  if np_prod d0 == 1 && isList d1 && headIsInt d1 then
    .bra
  else if np_prod d1 == 1 && isList d0 && headIsInt d0 then
    .ket
  else if np_prod d0 == 1 && isList d1 && headIsList d1 then
    .operator_bra
  else if np_prod d1 == 1 && isList d0 && headIsList d0 then
    .operator_ket
  else if isList d0 && headIsInt d0 && (nbeq d0 d1 || !enforce_square) then
    .oper
  else if isList d0 && headIsList d0 &&
          ((nbeq d0 d1 && heads_eq d0 d1) || !enforce_square) then
    .super
  else
    .other

/-- Loop of Python `_enumerate_flat` over the elements of a list,
threading the counter `idx` exactly as the source does. -/
def enumList : List (NList α) → Nat → List (NList Nat) × Nat
  | [], idx => ([], idx)
  | .leaf _ :: xs, idx =>
    let q := enumList xs (idx + 1)
    (.leaf idx :: q.1, q.2)
  | .node ls :: xs, idx =>
    let p := enumList ls idx
    let q := enumList xs p.2
    (.node p.1 :: q.1, q.2)

/-- Python `_enumerate_flat(l, idx)`: a scalar becomes its label and the
counter advances; a list delegates to the element loop `enumList`. -/
def _enumerate_flat (l : NList α) (idx : Nat) : NList Nat × Nat :=
  match l with
  | .leaf _ => (.leaf idx, idx + 1)
  | .node ls => ((.node (enumList ls idx).1), (enumList ls idx).2)

/-- Python `enumerate_flat(l) = _enumerate_flat(l)[0]`. -/
def enumerate_flat (l : NList α) : NList Nat :=
  (_enumerate_flat l 0).1

/-- Python `unflatten(l, idxs)` for a list `idxs` (the only inputs the
source accepts: it iterates over `idxs`).  The source's `l[idx]` raises
`IndexError` out of range; labels produced by `enumerate_flat` are
always in range, and this embedding uses `getD` with a default there. -/
def unflattenList [Inhabited α] (l : List α) : List (NList Nat) → List (NList α)
  | [] => []
  | .leaf i :: rest => .leaf (l.getD i default) :: unflattenList l rest
  | .node js :: rest => .node (unflattenList l js) :: unflattenList l rest

/-- Python `unflatten(l, idxs)` at the top level: the source iterates
`for idx in idxs`, so a scalar `idxs` raises `TypeError` (modelled by
`none`); a list `idxs` rebuilds the matching list structure. -/
def unflatten [Inhabited α] (l : List α) (idxs : NList Nat) : Option (NList α) :=
  match idxs with
  | .node js => some (.node (unflattenList l js))
  | .leaf _ => none

/-- Python `l.remove(x)` restricted to scalar `x`: drop the first
element equal (`==`) to the scalar `x`; sub-lists never equal a scalar. -/
def removeFirst (ls : List (NList Nat)) (t : Nat) : List (NList Nat) :=
  match ls with
  | [] => []
  | x :: xs => if nbeq x (.leaf t) then xs else x :: removeFirst xs t

/-- One pass of Python `deep_remove` for a single target `t`: if `t`
occurs as a direct element (`to_remove in l`), remove the first such
occurrence and stop; otherwise recurse into every element. -/
def deep_remove1 : NList Nat → Nat → NList Nat
  | .leaf a, _ => .leaf a
  | .node ls, t =>
    if ls.any (fun x => nbeq x (.leaf t)) then
      .node (removeFirst ls t)
    else
      .node (ls.attach.map (fun e => deep_remove1 e.1 t))
decreasing_by
  have := List.sizeOf_lt_of_mem e.2
  simp only [NList.node.sizeOf_spec]
  omega

/-- Python `deep_remove(l, *what)`: the targets are processed in order,
each by one `deep_remove1` pass over the (possibly already modified)
structure. -/
def deep_remove (l : NList Nat) (what : List Nat) : NList Nat :=
  what.foldl (fun acc t => deep_remove1 acc t) l

/-- Element loop of Python `deep_map(fn, collection)` where `fn` may
raise (modelled by `Option`): a raised exception propagates, so the
whole call fails if any leaf fails. -/
def deep_mapList (f : α → Option β) : List (NList α) → Option (List (NList β))
  | [] => some []
  | .leaf a :: rest =>
    match f a, deep_mapList f rest with
    | some b, some r => some (.leaf b :: r)
    | _, _ => none
  | .node ls :: rest =>
    match deep_mapList f ls, deep_mapList f rest with
    | some l2, some r => some (.node l2 :: r)
    | _, _ => none

/-- Python `deep_map(fn, collection)`: apply `fn` at a scalar, recurse
through a container. -/
def deep_map (f : α → Option β) : NList α → Option (NList β)
  | .leaf a => (f a).map .leaf
  | .node ls => (deep_mapList f ls).map .node

/-- Structure-preserving leaf map (total); used to state what a
successful `deep_map` returns. -/
def mapLeavesList (g : α → β) : List (NList α) → List (NList β)
  | [] => []
  | .leaf a :: rest => .leaf (g a) :: mapLeavesList g rest
  | .node ls :: rest => .node (mapLeavesList g ls) :: mapLeavesList g rest

/-- Structure-preserving leaf map on a tree. -/
def mapLeaves (g : α → β) (t : NList α) : NList β :=
  match t with
  | .leaf a => .leaf (g a)
  | .node ls => .node (mapLeavesList g ls)

/-- Python `list(reversed(x))` for a list `x`, as applied by
`dims_to_tensor_perm` to `perm[0]` / `perm[1]`.  Those are lists for
every dims specification of the data model (on a scalar the Python call
would raise `TypeError`; this embedding returns the scalar unchanged). -/
def reverse_node : NList α → NList α
  | .node ls => .node ls.reverse
  | .leaf a => .leaf a

/-- Python `perm[i]` for an arbitrary (possibly negative) Python `int`
index: non-negative indices index from the front, indices in
`[-len, -1]` from the back, anything else raises (`none`). -/
def pyGet (l : List α) (i : Int) : Option α :=
  if 0 ≤ i then l.get? i.toNat
  else if 0 ≤ i + l.length then l.get? (i + l.length).toNat
  else none

/-- Python `dims_to_tensor_perm(dims)` with `dims = [d0, d1]`.
`perm = enumerate_flat(dims)` is the two-element label tree
`[e0, e1]` (see `enumerate_flat_pair`); the mutation
`perm[1] = list(reversed(perm[1]))` (resp. for `perm[0]`) is modelled by
rebinding, and the `NotImplementedError` raised for kind `other` is
modelled by `none`. -/
def dims_to_tensor_perm (d0 d1 : NList Nat) : Option (List Nat) :=
  let dims_type := type_from_dims d0 d1 false
  let e0 := (_enumerate_flat d0 0).1
  let e1 := (_enumerate_flat d1 (_enumerate_flat d0 0).2).1
  if dims_type = .oper ∨ dims_type = .ket ∨ dims_type = .bra then
    some (flatten (NList.node [e0, e1]))
  else if dims_type = .other then
    none
  else
    let e1' := if dims_type = .operator_ket ∨ dims_type = .super then
                 reverse_node e1 else e1
    let e0' := if dims_type = .operator_bra ∨ dims_type = .super then
                 reverse_node e0 else e0
    some (flatten (NList.node [e0', e1']))

/-- Python `dims_to_tensor_shape(dims)`: look the flattened dims up at
each position named by the permutation.  The permutation's entries are
always in range (they enumerate the flattened dims), so `getD` is
faithful to the source's `getitem`. -/
def dims_to_tensor_shape (d0 d1 : NList Nat) : Option (List Nat) :=
  match dims_to_tensor_perm d0 d1 with
  | none => none
  | some perm =>
    let dims := flatten (NList.node [d0, d1])
    some (perm.map (fun i => dims.getD i 0))

/-- Python `dims_idxs_to_tensor_idxs(dims, indices)`:
`deep_map(partial(getitem, perm), indices)`, where `getitem` follows
Python indexing (`pyGet`), raising on out-of-range indices. -/
def dims_idxs_to_tensor_idxs (d0 d1 : NList Nat) (indices : NList Int) :
    Option (NList Int) :=
  match dims_to_tensor_perm d0 d1 with
  | none => none
  | some perm => deep_map (fun i => (pyGet perm i).map Int.ofNat) indices

/-- Data-model shape of a flat side: a non-empty list of positive
integers. -/
def isFlatSide : NList Nat → Bool
  | .node ls => !ls.isEmpty && ls.all (fun x => match x with
      | .leaf n => decide (0 < n)
      | .node _ => false)
  | .leaf _ => false

/-- Data-model shape of a nested side: a pair of equal-length flat
sides (the output and input spaces of a vectorized operator).  Equal
lengths keep `np.prod` defined (numpy rejects ragged nesting). -/
def isPairSide : NList Nat → Bool
  | .node [a, b] => isFlatSide a && isFlatSide b &&
      ((flatten a).length == (flatten b).length)
  | _ => false

/-- Well-formed side of a dims specification, per the data model. -/
def WfSide (s : NList Nat) : Bool := isFlatSide s || isPairSide s

unseal nbeq flattenList enumList unflattenList deep_remove1
unseal deep_mapList mapLeavesList

example : flatten (NList.node [NList.node [NList.leaf 1, NList.leaf 2], NList.leaf 3]) = [1, 2, 3] := by decide

example : enumerate_flat (NList.node [NList.node [NList.leaf 10], NList.node [NList.leaf 20, NList.leaf 30]]) =
    NList.node [NList.node [NList.leaf 0], NList.node [NList.leaf 1, NList.leaf 2]] := by rfl

example : dims_to_tensor_perm (NList.node [NList.leaf 2, NList.leaf 3]) (NList.node [NList.leaf 2, NList.leaf 3]) = some [0, 1, 2, 3] := by rfl

/-- Concrete dims side `[2, 3]` (the `oper` example `[[2, 3], [2, 3]]`
uses it for both sides). -/
def oper_d : NList Nat := NList.node [NList.leaf 2, NList.leaf 3]

/-- Concrete dims side `[4]` (row side of the `ket` example `[[4], [1]]`). -/
def ket_d0 : NList Nat := NList.node [NList.leaf 4]

/-- Concrete dims side `[1]` (column side of the `ket` example, and both
sides of the degenerate `[[1], [1]]` example). -/
def ket_d1 : NList Nat := NList.node [NList.leaf 1]

/-- Concrete dims side `[[2, 3], [2, 3]]` (the `super` example
`[[[2, 3], [2, 3]], [[2, 3], [2, 3]]]` uses it for both sides). -/
def super_d : NList Nat :=
  NList.node [NList.node [NList.leaf 2, NList.leaf 3],
              NList.node [NList.leaf 2, NList.leaf 3]]

/-! ### Library lemmas about the tree utilities -/

theorem flattenList_cons (x : NList α) (xs : List (NList α)) :
    flattenList (x :: xs) = flatten x ++ flattenList xs := by
  cases x <;> simp [flattenList, flatten]

theorem flatten_node_pair (a b : NList α) :
    flatten (NList.node [a, b]) = flatten a ++ flatten b := by
  simp [flatten, flattenList_cons, flattenList]

theorem flattenList_eq_flatten_map (ls : List (NList α)) :
    flattenList ls = (ls.map flatten).flatten := by
  induction ls with
  | nil => simp [flattenList]
  | cons x xs ih => simp [flattenList_cons, ih]

theorem flattenList_reverse_perm (ls : List (NList α)) :
    (flattenList ls.reverse).Perm (flattenList ls) := by
  rw [flattenList_eq_flatten_map, flattenList_eq_flatten_map, List.map_reverse]
  exact (List.reverse_perm (ls.map flatten)).flatten

theorem reverse_node_flatten_perm (t : NList α) :
    (flatten (reverse_node t)).Perm (flatten t) := by
  cases t with
  | leaf a => simp [reverse_node]
  | node ls => simpa [reverse_node, flatten] using flattenList_reverse_perm ls

theorem enumList_spec (ls : List (NList α)) (idx : Nat) :
    (enumList ls idx).2 = idx + (flattenList ls).length ∧
    flattenList (enumList ls idx).1 = List.range' idx (flattenList ls).length := by
  induction ls, idx using enumList.induct with
  | case1 idx => simp [enumList, flattenList]
  | case2 a xs idx ih =>
    obtain ⟨ih1, ih2⟩ := ih
    constructor
    · simp only [enumList, flattenList, List.length_cons]
      rw [ih1]; omega
    · simp only [enumList, flattenList, List.length_cons]
      rw [ih2, List.range'_succ]
  | case3 ls xs idx p ih1 ih2 =>
    have hp : p = enumList ls idx := rfl
    obtain ⟨a1, a2⟩ := ih1
    obtain ⟨b1, b2⟩ := ih2
    rw [hp] at b1 b2
    constructor
    · simp only [enumList, flattenList, List.length_append]
      rw [b1, a1]; omega
    · simp only [enumList, flattenList, List.length_append]
      rw [b2, a2, a1]
      rw [show idx + (flattenList ls).length =
            idx + 1 * (flattenList ls).length by omega]
      rw [List.range'_append]
      congr 1
      omega

theorem _enumerate_flat_spec (t : NList α) (idx : Nat) :
    (_enumerate_flat t idx).2 = idx + (flatten t).length ∧
    flatten ((_enumerate_flat t idx).1) = List.range' idx (flatten t).length := by
  cases t with
  | leaf a => simp [_enumerate_flat, flatten, List.range'_one]
  | node ls => simpa [_enumerate_flat, flatten] using enumList_spec ls idx

theorem unflattenList_enumList [Inhabited α] (ls : List (NList α)) (idx : Nat) :
    ∀ (L1 L2 : List α), L1.length = idx →
      unflattenList (L1 ++ flattenList ls ++ L2) (enumList ls idx).1 = ls := by
  induction ls, idx using enumList.induct with
  | case1 idx =>
    intro L1 L2 _
    simp [enumList, unflattenList]
  | case2 a xs idx ih =>
    intro L1 L2 hL1
    simp only [enumList, flattenList, unflattenList]
    have hhead : (L1 ++ (a :: flattenList xs) ++ L2).getD idx default = a := by
      rw [List.getD_eq_getElem?_getD, List.append_assoc,
         List.getElem?_append_right hL1.le, hL1]
      simp
    have htail :
        unflattenList (L1 ++ (a :: flattenList xs) ++ L2) (enumList xs (idx + 1)).1 = xs := by
      have := ih (L1 ++ [a]) L2 (by simp [hL1])
      simpa [List.append_assoc] using this
    rw [hhead, htail]
  | case3 ls xs idx p ih1 ih2 =>
    intro L1 L2 hL1
    have hp : p = enumList ls idx := rfl
    rw [hp] at ih2
    simp only [enumList, flattenList, unflattenList]
    have hhead :
        unflattenList (L1 ++ (flattenList ls ++ flattenList xs) ++ L2) (enumList ls idx).1 = ls := by
      have := ih1 L1 (flattenList xs ++ L2) hL1
      simpa [List.append_assoc] using this
    have htail :
        unflattenList (L1 ++ (flattenList ls ++ flattenList xs) ++ L2)
          (enumList xs (enumList ls idx).2).1 = xs := by
      have := ih2 (L1 ++ flattenList ls) L2
        (by simp [hL1, (enumList_spec ls idx).1])
      simpa [List.append_assoc] using this
    rw [hhead, htail]

theorem length_flatten_perm_of (x0 x1 d0 d1 : NList Nat)
    (h0 : (flatten x0).Perm (flatten ((_enumerate_flat d0 0).1)))
    (h1 : (flatten x1).Perm
            (flatten ((_enumerate_flat d1 ((_enumerate_flat d0 0).2)).1))) :
    (flatten (NList.node [x0, x1])).Perm
      (List.range (flatten (NList.node [d0, d1])).length) := by
  have e0 := (_enumerate_flat_spec d0 0).2
  have c0 := (_enumerate_flat_spec d0 0).1
  have e1 := (_enumerate_flat_spec d1 ((_enumerate_flat d0 0).2)).2
  rw [e0] at h0
  rw [c0] at e1
  rw [c0] at h1
  rw [e1] at h1
  rw [flatten_node_pair, flatten_node_pair, List.length_append,
     List.range_eq_range']
  have happ : List.range' 0 (flatten d0).length ++
      List.range' (0 + (flatten d0).length) (flatten d1).length =
      List.range' 0 ((flatten d0).length + (flatten d1).length) := by
    rw [show 0 + (flatten d0).length = 0 + 1 * (flatten d0).length by omega,
       List.range'_append]
    congr 1
    omega
  exact happ ▸ (h0.append h1)

/-! ### Lemmas about the permutation builder -/

theorem dims_to_tensor_perm_none_iff (d0 d1 : NList Nat) :
    dims_to_tensor_perm d0 d1 = none ↔ type_from_dims d0 d1 false = .other := by
  cases h : type_from_dims d0 d1 false <;> simp [dims_to_tensor_perm, h]

theorem dims_to_tensor_perm_range (d0 d1 : NList Nat)
    (h : type_from_dims d0 d1 false ≠ .other) :
    ∃ p, dims_to_tensor_perm d0 d1 = some p ∧
      p.Perm (List.range (flatten (NList.node [d0, d1])).length) := by
  cases htype : type_from_dims d0 d1 false with
  | other => exact absurd htype h
  | oper =>
    refine ⟨flatten (NList.node [(_enumerate_flat d0 0).1,
        (_enumerate_flat d1 ((_enumerate_flat d0 0).2)).1]),
      by simp [dims_to_tensor_perm, htype], ?_⟩
    exact length_flatten_perm_of _ _ d0 d1 (List.Perm.refl _) (List.Perm.refl _)
  | ket =>
    refine ⟨flatten (NList.node [(_enumerate_flat d0 0).1,
        (_enumerate_flat d1 ((_enumerate_flat d0 0).2)).1]),
      by simp [dims_to_tensor_perm, htype], ?_⟩
    exact length_flatten_perm_of _ _ d0 d1 (List.Perm.refl _) (List.Perm.refl _)
  | bra =>
    refine ⟨flatten (NList.node [(_enumerate_flat d0 0).1,
        (_enumerate_flat d1 ((_enumerate_flat d0 0).2)).1]),
      by simp [dims_to_tensor_perm, htype], ?_⟩
    exact length_flatten_perm_of _ _ d0 d1 (List.Perm.refl _) (List.Perm.refl _)
  | operator_ket =>
    refine ⟨flatten (NList.node [(_enumerate_flat d0 0).1,
        reverse_node (_enumerate_flat d1 ((_enumerate_flat d0 0).2)).1]),
      by simp [dims_to_tensor_perm, htype], ?_⟩
    exact length_flatten_perm_of _ _ d0 d1 (List.Perm.refl _)
      (reverse_node_flatten_perm _)
  | operator_bra =>
    refine ⟨flatten (NList.node [reverse_node (_enumerate_flat d0 0).1,
        (_enumerate_flat d1 ((_enumerate_flat d0 0).2)).1]),
      by simp [dims_to_tensor_perm, htype], ?_⟩
    exact length_flatten_perm_of _ _ d0 d1 (reverse_node_flatten_perm _)
      (List.Perm.refl _)
  | super =>
    refine ⟨flatten (NList.node [reverse_node (_enumerate_flat d0 0).1,
        reverse_node (_enumerate_flat d1 ((_enumerate_flat d0 0).2)).1]),
      by simp [dims_to_tensor_perm, htype], ?_⟩
    exact length_flatten_perm_of _ _ d0 d1 (reverse_node_flatten_perm _)
      (reverse_node_flatten_perm _)

theorem dims_to_tensor_perm_some_range (d0 d1 : NList Nat) (p : List Nat)
    (hp : dims_to_tensor_perm d0 d1 = some p) :
    p.Perm (List.range (flatten (NList.node [d0, d1])).length) := by
  have hne : type_from_dims d0 d1 false ≠ .other := by
    intro h
    rw [(dims_to_tensor_perm_none_iff d0 d1).2 h] at hp
    cases hp
  obtain ⟨q, hq, hperm⟩ := dims_to_tensor_perm_range d0 d1 hne
  have : p = q := by
    have := hp.symm.trans hq
    injection this
  rw [this]
  exact hperm

/-! ### Claim theorems: the permutation builder -/

/-- C1: for every 2-element dims specification of positive integers as
in the data model that `type_from_dims` (with square enforcement
disabled) does not classify as `other`, `dims_to_tensor_perm` returns a
permutation of the integers `0 .. N-1`, each appearing exactly once,
where `N = len(flatten(dims))`. -/
theorem claim_C1_perm_bijection (d0 d1 : NList Nat)
    (h0 : WfSide d0 = true) (h1 : WfSide d1 = true)
    (h : type_from_dims d0 d1 false ≠ .other) :
    ∃ p, dims_to_tensor_perm d0 d1 = some p ∧
      p.Perm (List.range (flatten (NList.node [d0, d1])).length) :=
  dims_to_tensor_perm_range d0 d1 h

/-- Witness for C1 at the `super` dims `[[[2,3],[2,3]], [[2,3],[2,3]]]`. -/
theorem claim_C1_perm_bijection_witness :
    (WfSide super_d = true ∧ WfSide super_d = true ∧
      type_from_dims super_d super_d false ≠ .other) ∧
    ∃ p, dims_to_tensor_perm super_d super_d = some p ∧
      p.Perm (List.range (flatten (NList.node [super_d, super_d])).length) :=
  ⟨⟨by decide, by decide, by decide⟩,
    claim_C1_perm_bijection super_d super_d (by decide) (by decide) (by decide)⟩

/-- C3: `unflatten(flatten(t), enumerate_flat(t)) == t` for every
finite nested structure `t` of scalars and sequences (rooted, as the
source's `unflatten` requires, at a sequence). -/
theorem claim_C3_unflatten_flatten_enumerate (ts : List (NList α)) [Inhabited α] :
    unflatten (flatten (NList.node ts)) (enumerate_flat (NList.node ts)) =
      some (NList.node ts) := by
  have h := unflattenList_enumList ts 0 [] [] rfl
  simp only [List.nil_append, List.append_nil] at h
  simp [unflatten, enumerate_flat, _enumerate_flat, flatten, h]

/-- C6: on every 2-element dims specification of the data model the
classifier itself is total (it returns one of the seven kinds, never an
error), and `dims_to_tensor_perm` fails exactly when the classification
with square enforcement disabled is `other`, producing a full
permutation in every other case and no partial output on failure. -/
theorem claim_C6_fail_iff_other (d0 d1 : NList Nat)
    (h0 : WfSide d0 = true) (h1 : WfSide d1 = true) :
    (∀ es, type_from_dims d0 d1 es = .bra ∨ type_from_dims d0 d1 es = .ket ∨
       type_from_dims d0 d1 es = .operator_bra ∨
       type_from_dims d0 d1 es = .operator_ket ∨
       type_from_dims d0 d1 es = .oper ∨ type_from_dims d0 d1 es = .super ∨
       type_from_dims d0 d1 es = .other) ∧
    (dims_to_tensor_perm d0 d1 = none ↔
       type_from_dims d0 d1 false = .other) := by
  refine ⟨fun es => ?_, dims_to_tensor_perm_none_iff d0 d1⟩
  cases type_from_dims d0 d1 es <;> simp

/-- Witness for C6 at the `oper` dims `[[2, 3], [2, 3]]`. -/
theorem claim_C6_fail_iff_other_witness :
    (WfSide oper_d = true ∧ WfSide oper_d = true) ∧
    (∀ es, type_from_dims oper_d oper_d es = .bra ∨
       type_from_dims oper_d oper_d es = .ket ∨
       type_from_dims oper_d oper_d es = .operator_bra ∨
       type_from_dims oper_d oper_d es = .operator_ket ∨
       type_from_dims oper_d oper_d es = .oper ∨
       type_from_dims oper_d oper_d es = .super ∨
       type_from_dims oper_d oper_d es = .other) ∧
    (dims_to_tensor_perm oper_d oper_d = none ↔
       type_from_dims oper_d oper_d false = .other) :=
  ⟨⟨by decide, by decide⟩,
    (claim_C6_fail_iff_other oper_d oper_d (by decide) (by decide)).1,
    (claim_C6_fail_iff_other oper_d oper_d (by decide) (by decide)).2⟩

/-- C4 counterexample: the claimed identity-case values have the wrong
lengths.  For `dims = [[2, 3], [2, 3]]` (kind `oper`) the permutation
has one entry per scalar of the flattened dims (four), not two, and for
`dims = [[4], [1]]` (kind `ket`) it has two entries, not one. -/
theorem claim_C4_counterexample :
    ¬ (dims_to_tensor_perm oper_d oper_d = some [0, 1] ∧
       dims_to_tensor_perm ket_d0 ket_d1 = some [0]) := by decide

/-- C4 amended: for `dims = [[2, 3], [2, 3]]` (kind `oper`),
`dims_to_tensor_perm` returns the identity permutation `[0, 1, 2, 3]`;
for `dims = [[4], [1]]` (kind `ket`), it returns `[0, 1]`. -/
theorem claim_C4_identity_cases :
    dims_to_tensor_perm oper_d oper_d = some [0, 1, 2, 3] ∧
    dims_to_tensor_perm ket_d0 ket_d1 = some [0, 1] ∧
    type_from_dims oper_d oper_d false = .oper ∧
    type_from_dims ket_d0 ket_d1 false = .ket := by decide

/-- C2 counterexample: for the `super` dims
`[[[2,3],[2,3]], [[2,3],[2,3]]]` the flat permutation
`[2, 3, 0, 1, 6, 7, 4, 5]` does not differ from the plain enumeration
`[0 .. 7]` only at the positions of the second sub-branch of each half
(`2, 3, 6, 7`): it differs at every position, in particular at
position `0`. -/
theorem claim_C2_counterexample :
    ¬ (∀ i, i < 8 →
        ((((dims_to_tensor_perm super_d super_d).getD []).getD i 9 ≠
            (flatten (enumerate_flat (NList.node [super_d, super_d]))).getD i 9) ↔
          (i = 2 ∨ i = 3 ∨ i = 6 ∨ i = 7))) := by decide

/-- C2 amended: for the `super` dims `[[[2,3],[2,3]], [[2,3],[2,3]]]`,
`dims_to_tensor_perm` reverses the order of the two sub-sequences inside
both the row branch and the column branch of `enumerate_flat(dims)`
before flattening, giving `[2, 3, 0, 1, 6, 7, 4, 5]`; the resulting flat
permutation differs from `flatten(enumerate_flat(dims))` at every one of
the eight positions (both sub-branches of each half, not only the
second); and applying the reversal correction twice returns the original
enumeration. -/
theorem claim_C2_super_reversal :
    dims_to_tensor_perm super_d super_d =
      some (flatten (NList.node
        [reverse_node ((_enumerate_flat super_d 0).1),
         reverse_node
           ((_enumerate_flat super_d ((_enumerate_flat super_d 0).2)).1)])) ∧
    dims_to_tensor_perm super_d super_d = some [2, 3, 0, 1, 6, 7, 4, 5] ∧
    flatten (enumerate_flat (NList.node [super_d, super_d])) =
      [0, 1, 2, 3, 4, 5, 6, 7] ∧
    (∀ i, i < 8 →
       ((dims_to_tensor_perm super_d super_d).getD []).getD i 9 ≠
         (flatten (enumerate_flat (NList.node [super_d, super_d]))).getD i 9) ∧
    reverse_node (reverse_node ((_enumerate_flat super_d 0).1)) =
      (_enumerate_flat super_d 0).1 ∧
    reverse_node (reverse_node
        ((_enumerate_flat super_d ((_enumerate_flat super_d 0).2)).1)) =
      (_enumerate_flat super_d ((_enumerate_flat super_d 0).2)).1 :=
  ⟨rfl, rfl, rfl, by decide, rfl, rfl⟩

/-- C5 counterexample: for `dims = [[2, 3], [2, 3]]` the tensor shape is
not `(2, 3)`. -/
theorem claim_C5_counterexample :
    dims_to_tensor_shape oper_d oper_d ≠ some [2, 3] := by decide

theorem dims_to_tensor_shape_spec (d0 d1 : NList Nat) (p : List Nat)
    (hp : dims_to_tensor_perm d0 d1 = some p) :
    ∃ s, dims_to_tensor_shape d0 d1 = some s ∧
      s.length = (flatten (NList.node [d0, d1])).length ∧
      ∀ i, i < s.length →
        s.getD i 0 = (flatten (NList.node [d0, d1])).getD (p.getD i 0) 0 := by
  refine ⟨p.map (fun i => (flatten (NList.node [d0, d1])).getD i 0), ?_, ?_, ?_⟩
  · simp [dims_to_tensor_shape, hp]
  · rw [List.length_map]
    exact ((dims_to_tensor_perm_some_range d0 d1 p hp).length_eq).trans
      (List.length_range _)
  · intro i hi
    rw [List.length_map] at hi
    rw [List.getD_eq_getElem _ 0 (by simpa using hi), List.getElem_map,
       List.getD_eq_getElem _ 0 hi]

/-- C5 amended: for every dims specification accepted by
`dims_to_tensor_perm`, the tensor shape has length `len(flatten(dims))`
and entry `i` equal to `flatten(dims)[perm[i]]`; in particular for
`dims = [[2, 3], [2, 3]]` it is `(2, 3, 2, 3)` (not `(2, 3)`). -/
theorem claim_C5_shape :
    (∀ d0 d1 p, dims_to_tensor_perm d0 d1 = some p →
      ∃ s, dims_to_tensor_shape d0 d1 = some s ∧
        s.length = (flatten (NList.node [d0, d1])).length ∧
        ∀ i, i < s.length →
          s.getD i 0 = (flatten (NList.node [d0, d1])).getD (p.getD i 0) 0) ∧
    dims_to_tensor_shape oper_d oper_d = some [2, 3, 2, 3] :=
  ⟨fun d0 d1 p hp => dims_to_tensor_shape_spec d0 d1 p hp, by decide⟩

/-- Witness for C5 at the `oper` dims `[[2, 3], [2, 3]]`. -/
theorem claim_C5_shape_witness :
    dims_to_tensor_perm oper_d oper_d = some [0, 1, 2, 3] ∧
    ∃ s, dims_to_tensor_shape oper_d oper_d = some s ∧
      s.length = (flatten (NList.node [oper_d, oper_d])).length ∧
      ∀ i, i < s.length →
        s.getD i 0 =
          (flatten (NList.node [oper_d, oper_d])).getD ([0, 1, 2, 3].getD i 0) 0 :=
  ⟨by decide, claim_C5_shape.1 oper_d oper_d [0, 1, 2, 3] (by decide)⟩

/-- C8: `type_from_dims` checks the `bra` pattern (row product `1`,
column a flat integer list) before the `oper` pattern, so a dims
specification matching both is classified `bra`, not `oper` — in
particular `[[1], [1]]` (see the witness). -/
theorem claim_C8_bra_priority (d0 d1 : NList Nat) (es : Bool)
    (hbra : (np_prod d0 == 1 && isList d1 && headIsInt d1) = true)
    (hoper : (isList d0 && headIsInt d0 && (nbeq d0 d1 || !es)) = true) :
    type_from_dims d0 d1 es = .bra := by
  simp [type_from_dims, hbra]

/-- Witness for C8 at `dims = [[1], [1]]` with square enforcement on
(the classifier's default), where both the `bra` and the `oper` patterns
match and the result is `bra`. -/
theorem claim_C8_bra_priority_witness :
    ((np_prod ket_d1 == 1 && isList ket_d1 && headIsInt ket_d1) = true) ∧
    ((isList ket_d1 && headIsInt ket_d1 && (nbeq ket_d1 ket_d1 || !true)) = true) ∧
    type_from_dims ket_d1 ket_d1 true = .bra ∧ DimsType.bra ≠ DimsType.oper :=
  ⟨by decide, by decide,
    claim_C8_bra_priority ket_d1 ket_d1 true (by decide) (by decide), by decide⟩

theorem removeFirst_countP (ls : List (NList Nat)) (t : Nat)
    (h : (ls.any fun x => nbeq x (NList.leaf t)) = true) :
    (removeFirst ls t).countP (fun x => nbeq x (NList.leaf t)) + 1 =
      ls.countP (fun x => nbeq x (NList.leaf t)) := by
  induction ls with
  | nil => simp at h
  | cons x xs ih =>
    by_cases hx : nbeq x (NList.leaf t) = true
    · simp [removeFirst, hx, List.countP_cons]
    · have h' : (xs.any fun y => nbeq y (NList.leaf t)) = true := by
        simpa [hx] using h
      simp [removeFirst, hx, List.countP_cons, ih h']

/-- C9: `deep_remove([[[[0,1,2]],[3,4],[5],[6,7]]], 0, 5)` equals
`[[[[1,2]],[3,4],[],[6,7]]]`, and removal at a given list level removes
at most the first matching occurrence of a target at that level (the
direct-occurrence count drops by exactly one). -/
theorem claim_C9_deep_remove_example :
    deep_remove
      (NList.node [NList.node [NList.node [NList.node
          [NList.leaf 0, NList.leaf 1, NList.leaf 2]],
        NList.node [NList.leaf 3, NList.leaf 4], NList.node [NList.leaf 5],
        NList.node [NList.leaf 6, NList.leaf 7]]]) [0, 5] =
      NList.node [NList.node [NList.node [NList.node
          [NList.leaf 1, NList.leaf 2]],
        NList.node [NList.leaf 3, NList.leaf 4], NList.node [],
        NList.node [NList.leaf 6, NList.leaf 7]]] ∧
    ∀ (ls : List (NList Nat)) (t : Nat),
      (ls.any fun x => nbeq x (NList.leaf t)) = true →
      deep_remove1 (NList.node ls) t = NList.node (removeFirst ls t) ∧
      (removeFirst ls t).countP (fun x => nbeq x (NList.leaf t)) + 1 =
        ls.countP (fun x => nbeq x (NList.leaf t)) := by
  refine ⟨rfl, fun ls t h => ⟨?_, removeFirst_countP ls t h⟩⟩
  simp [deep_remove1, h]

/-- Witness for the quantified part of C9 at a level holding two direct
occurrences of the target `0`: only the first is removed. -/
theorem claim_C9_deep_remove_example_witness :
    (([NList.leaf 0, NList.node [NList.leaf 9], NList.leaf 0].any
        fun x => nbeq x (NList.leaf 0)) = true) ∧
    deep_remove1 (NList.node [NList.leaf 0, NList.node [NList.leaf 9],
        NList.leaf 0]) 0 =
      NList.node (removeFirst [NList.leaf 0, NList.node [NList.leaf 9],
        NList.leaf 0] 0) ∧
    (removeFirst [NList.leaf 0, NList.node [NList.leaf 9], NList.leaf 0]
        0).countP (fun x => nbeq x (NList.leaf 0)) + 1 =
      ([NList.leaf 0, NList.node [NList.leaf 9], NList.leaf 0].countP
        fun x => nbeq x (NList.leaf 0)) :=
  ⟨by decide,
    (claim_C9_deep_remove_example.2 _ 0 (by decide)).1,
    (claim_C9_deep_remove_example.2 _ 0 (by decide)).2⟩

/-- C10: when a target occurs as a direct element of a list, the first
such occurrence is removed and `deep_remove` does not recurse into that
list's remaining elements for that target, so deeper occurrences inside
sibling sub-lists survive: `deep_remove([0, [0]], 0) == [[0]]`; in
general the result at such a level is exactly the level with the first
direct occurrence dropped and every other element unchanged. -/
theorem claim_C10_first_match_shadowing :
    deep_remove (NList.node [NList.leaf 0, NList.node [NList.leaf 0]]) [0] =
      NList.node [NList.node [NList.leaf 0]] ∧
    ∀ (ls : List (NList Nat)) (t : Nat),
      (ls.any fun x => nbeq x (NList.leaf t)) = true →
      deep_remove1 (NList.node ls) t = NList.node (removeFirst ls t) := by
  refine ⟨rfl, fun ls t h => ?_⟩
  simp [deep_remove1, h]

/-- Witness for the quantified part of C10: a direct occurrence of `5`
next to a sub-list containing `5`; the sub-list survives untouched. -/
theorem claim_C10_first_match_shadowing_witness :
    (([NList.node [NList.leaf 5], NList.leaf 5].any
        fun x => nbeq x (NList.leaf 5)) = true) ∧
    deep_remove1 (NList.node [NList.node [NList.leaf 5], NList.leaf 5]) 5 =
      NList.node (removeFirst [NList.node [NList.leaf 5], NList.leaf 5] 5) :=
  ⟨by decide, claim_C10_first_match_shadowing.2 _ 5 (by decide)⟩

/-! ### Lemmas about deep_map and Python indexing -/

theorem deep_mapList_eq_none_iff (f : α → Option β) :
    (ls : List (NList α)) →
    (deep_mapList f ls = none ↔ ∃ a ∈ flattenList ls, f a = none)
  | [] => by simp [deep_mapList, flattenList]
  | .leaf a :: rest => by
    have ih := deep_mapList_eq_none_iff f rest
    have hsplit : deep_mapList f (.leaf a :: rest) = none ↔
        f a = none ∨ deep_mapList f rest = none := by
      cases hfa : f a <;> cases hrest : deep_mapList f rest <;>
        simp [deep_mapList, hfa, hrest]
    rw [hsplit, ih]
    simp [flattenList]
  | .node ls :: rest => by
    have ih1 := deep_mapList_eq_none_iff f ls
    have ih2 := deep_mapList_eq_none_iff f rest
    have hsplit : deep_mapList f (.node ls :: rest) = none ↔
        deep_mapList f ls = none ∨ deep_mapList f rest = none := by
      cases hls : deep_mapList f ls <;> cases hrest : deep_mapList f rest <;>
        simp [deep_mapList, hls, hrest]
    rw [hsplit, ih1, ih2]
    simp only [flattenList, List.mem_append]
    constructor
    · rintro (⟨a, ha, hfa⟩ | ⟨a, ha, hfa⟩)
      · exact ⟨a, Or.inl ha, hfa⟩
      · exact ⟨a, Or.inr ha, hfa⟩
    · rintro ⟨a, ha | ha, hfa⟩
      · exact Or.inl ⟨a, ha, hfa⟩
      · exact Or.inr ⟨a, ha, hfa⟩

theorem deep_mapList_eq_map (f : α → Option β) (g : α → β) :
    (ls : List (NList α)) →
    (∀ a ∈ flattenList ls, f a = some (g a)) →
    deep_mapList f ls = some (mapLeavesList g ls)
  | [], _ => by simp [deep_mapList, mapLeavesList]
  | .leaf a :: rest, h => by
    have ih := deep_mapList_eq_map f g rest
      (fun x hx => h x (by simp only [flattenList, List.mem_cons]; exact Or.inr hx))
    have hfa : f a = some (g a) := h a (by simp [flattenList])
    simp [deep_mapList, hfa, ih, mapLeavesList]
  | .node ls :: rest, h => by
    have ih1 := deep_mapList_eq_map f g ls
      (fun x hx => h x (by simp only [flattenList, List.mem_append]; exact Or.inl hx))
    have ih2 := deep_mapList_eq_map f g rest
      (fun x hx => h x (by simp only [flattenList, List.mem_append]; exact Or.inr hx))
    simp [deep_mapList, ih1, ih2, mapLeavesList]

theorem deep_mapList_shape (f : α → Option β) :
    (ls : List (NList α)) → (r : List (NList β)) →
    deep_mapList f ls = some r →
    mapLeavesList (fun _ => (0 : Nat)) r = mapLeavesList (fun _ => (0 : Nat)) ls
  | [], r, h => by
    simp only [deep_mapList, Option.some.injEq] at h
    subst h
    rfl
  | .leaf a :: rest, r, h => by
    rcases hfa : f a with _ | b <;>
      rcases hrest : deep_mapList f rest with _ | r2 <;>
      simp only [deep_mapList, hfa, hrest, Option.some.injEq] at h <;>
      try exact Option.noConfusion h
    have ih := deep_mapList_shape f rest r2 hrest
    rw [← h]
    simp [mapLeavesList, ih]
  | .node ls :: rest, r, h => by
    rcases hls : deep_mapList f ls with _ | l2 <;>
      rcases hrest : deep_mapList f rest with _ | r2 <;>
      simp only [deep_mapList, hls, hrest, Option.some.injEq] at h <;>
      try exact Option.noConfusion h
    have ih1 := deep_mapList_shape f ls l2 hls
    have ih2 := deep_mapList_shape f rest r2 hrest
    rw [← h]
    simp [mapLeavesList, ih1, ih2]

theorem deep_map_eq_none_iff (f : α → Option β) (t : NList α) :
    deep_map f t = none ↔ ∃ a ∈ flatten t, f a = none := by
  cases t with
  | leaf a => cases hfa : f a <;> simp [deep_map, flatten, hfa]
  | node ls =>
    simp [deep_map, flatten, deep_mapList_eq_none_iff]

theorem deep_map_eq_map (f : α → Option β) (g : α → β) (t : NList α)
    (h : ∀ a ∈ flatten t, f a = some (g a)) :
    deep_map f t = some (mapLeaves g t) := by
  cases t with
  | leaf a => simp [deep_map, mapLeaves, h a (by simp [flatten])]
  | node ls =>
    simp [deep_map, mapLeaves,
      deep_mapList_eq_map f g ls (by simpa [flatten] using h)]

theorem deep_map_shape (f : α → Option β) (t : NList α) (r : NList β)
    (h : deep_map f t = some r) :
    mapLeaves (fun _ => (0 : Nat)) r = mapLeaves (fun _ => (0 : Nat)) t := by
  cases t with
  | leaf a =>
    rcases hfa : f a with _ | b <;>
      simp only [deep_map, hfa, Option.map_none', Option.map_some',
        Option.some.injEq] at h <;>
      try exact Option.noConfusion h
    rw [← h]
    simp [mapLeaves]
  | node ls =>
    rcases hls : deep_mapList f ls with _ | l2 <;>
      simp only [deep_map, hls, Option.map_none', Option.map_some',
        Option.some.injEq] at h <;>
      try exact Option.noConfusion h
    rw [← h]
    simp [mapLeaves, deep_mapList_shape f ls l2 hls]

theorem pyGet_eq_none_iff (l : List α) (i : Int) :
    pyGet l i = none ↔ i < -(l.length : Int) ∨ (l.length : Int) ≤ i := by
  unfold pyGet
  split
  · rw [List.get?_eq_none]
    omega
  · split
    · rw [List.get?_eq_none]
      omega
    · simp
      omega

theorem pyGet_in_range (l : List Nat) (i : Int) (h0 : 0 ≤ i)
    (h1 : i < (l.length : Int)) :
    pyGet l i = some (l.getD i.toNat 0) := by
  unfold pyGet
  rw [if_pos h0]
  have hlt : i.toNat < l.length := by omega
  rw [List.getD_eq_getElem _ 0 hlt, List.get?_eq_getElem?,
     List.getElem?_eq_getElem hlt]

/-- C7 counterexample: the leaf index `-1` lies outside
`[0, len(perm))` (here `len(perm) = 4`), yet
`dims_idxs_to_tensor_idxs` does not fail: Python's negative indexing
silently returns `perm[-1] = 3`. -/
theorem claim_C7_counterexample :
    ¬ (0 ≤ (-1 : Int) ∧ (-1 : Int) < 4) ∧
    dims_idxs_to_tensor_idxs oper_d oper_d (NList.leaf (-1)) =
      some (NList.leaf 3) :=
  ⟨by decide, rfl⟩

/-- C7 amended: for every dims specification accepted by
`dims_to_tensor_perm`, `dims_idxs_to_tensor_idxs` fails exactly when
some leaf index is outside Python's indexable range
`[-len(perm), len(perm))` (indices in `[-len(perm), 0)` succeed through
negative indexing); on success it returns a structure isomorphic to
`indices` (a scalar for a scalar); and every leaf `i` in
`[0, len(perm))` is replaced by `perm[i]`. -/
theorem claim_C7_project_indices (d0 d1 : NList Nat) (p : List Nat)
    (hp : dims_to_tensor_perm d0 d1 = some p) (idxs : NList Int) :
    (dims_idxs_to_tensor_idxs d0 d1 idxs = none ↔
      ∃ i ∈ flatten idxs, i < -(p.length : Int) ∨ (p.length : Int) ≤ i) ∧
    (∀ r, dims_idxs_to_tensor_idxs d0 d1 idxs = some r →
      mapLeaves (fun _ => (0 : Nat)) r = mapLeaves (fun _ => (0 : Nat)) idxs) ∧
    ((∀ i ∈ flatten idxs, 0 ≤ i ∧ i < (p.length : Int)) →
      dims_idxs_to_tensor_idxs d0 d1 idxs =
        some (mapLeaves (fun i => ((p.getD i.toNat 0 : Nat) : Int)) idxs)) := by
  have hunfold : dims_idxs_to_tensor_idxs d0 d1 idxs =
      deep_map (fun i => (pyGet p i).map Int.ofNat) idxs := by
    simp [dims_idxs_to_tensor_idxs, hp]
  refine ⟨?_, ?_, ?_⟩
  · rw [hunfold, deep_map_eq_none_iff]
    constructor
    · rintro ⟨a, ha, hfa⟩
      rw [Option.map_eq_none'] at hfa
      exact ⟨a, ha, (pyGet_eq_none_iff p a).1 hfa⟩
    · rintro ⟨a, ha, hoob⟩
      refine ⟨a, ha, ?_⟩
      rw [Option.map_eq_none']
      exact (pyGet_eq_none_iff p a).2 hoob
  · intro r hr
    rw [hunfold] at hr
    exact deep_map_shape _ idxs r hr
  · intro hin
    rw [hunfold]
    refine deep_map_eq_map _ _ idxs (fun i hi => ?_)
    obtain ⟨hi0, hil⟩ := hin i hi
    rw [pyGet_in_range p i hi0 hil]
    rfl

/-- Witness for C7 at `dims = [[2, 3], [2, 3]]` and the scalar index
`2`. -/
theorem claim_C7_project_indices_witness :
    dims_to_tensor_perm oper_d oper_d = some [0, 1, 2, 3] ∧
    ((dims_idxs_to_tensor_idxs oper_d oper_d (NList.leaf 2) = none ↔
        ∃ i ∈ flatten (NList.leaf (2 : Int)),
          i < -((([0, 1, 2, 3] : List Nat)).length : Int) ∨
            ((([0, 1, 2, 3] : List Nat)).length : Int) ≤ i) ∧
      (∀ r, dims_idxs_to_tensor_idxs oper_d oper_d (NList.leaf 2) = some r →
        mapLeaves (fun _ => (0 : Nat)) r =
          mapLeaves (fun _ => (0 : Nat)) (NList.leaf (2 : Int))) ∧
      ((∀ i ∈ flatten (NList.leaf (2 : Int)),
          0 ≤ i ∧ i < ((([0, 1, 2, 3] : List Nat)).length : Int)) →
        dims_idxs_to_tensor_idxs oper_d oper_d (NList.leaf 2) =
          some (mapLeaves
            (fun i => ((([0, 1, 2, 3] : List Nat).getD i.toNat 0 : Nat) : Int))
            (NList.leaf (2 : Int))))) :=
  ⟨by decide,
    claim_C7_project_indices oper_d oper_d [0, 1, 2, 3] (by decide)
      (NList.leaf 2)⟩

/-- Witness for C3 at `t = [10, [20, 30]]`. -/
theorem claim_C3_unflatten_flatten_enumerate_witness :
    unflatten
      (flatten (NList.node
        [NList.leaf (10 : Nat), NList.node [NList.leaf 20, NList.leaf 30]]))
      (enumerate_flat (NList.node
        [NList.leaf (10 : Nat), NList.node [NList.leaf 20, NList.leaf 30]])) =
      some (NList.node
        [NList.leaf 10, NList.node [NList.leaf 20, NList.leaf 30]]) :=
  claim_C3_unflatten_flatten_enumerate
    [NList.leaf 10, NList.node [NList.leaf 20, NList.leaf 30]]
